import Mathlib

/-!
Shallow embedding of the reminder dispatch engine of the slonyara repository:
the SQLite-backed meeting storage (src/bot/models/storage/repository.py,
entities.py), the reminder scheduler/worker (src/bot/services/reminder.py),
the queued Telegram sender (src/bot/infra/sender.py) and the click guard
(src/telegram_meeting_bot/utils/locks.py).  Machine integers are modelled as
Int, instants as integer epoch seconds (storage/scheduler) or rationals
(sender clock), SQLite tables as lists of rows, and the fallible Telegram
transport as an oracle list of call outcomes.
-/

/-- Meeting row (entities.Meeting / the meetings table).  Only the fields read
or written by the reminder engine are modelled; `scheduled_at` is an epoch
second. -/
structure Meeting where
  id : String
  title : String
  scheduled_at : Int
  organizer_id : Int
  chat_id : Option Int
  status : String
  reminder_sent : Bool
deriving DecidableEq, Repr

/-- Chat settings row (entities.ChatSettings); `lead_times` are second
offsets. -/
structure ChatSettings where
  id : Int
  lead_times : List Int
deriving DecidableEq, Repr

/-- User settings row (entities.UserSettings). -/
structure UserSettings where
  id : Int
  default_lead_time : Int
deriving DecidableEq, Repr

/-- The SQLite database of SqliteMeetingStorage: meetings, chats, users, the
chat_reminder_log table (rows (chat_id, meeting_id, lead_seconds), unique by
its primary key) and the audit_logs table (modelled as (action, entity_id)
pairs). -/
structure Storage where
  meetings : List Meeting
  chats : List ChatSettings
  users : List UserSettings
  reminder_log : List (Int × String × Int)
  audit_log : List (String × String)
  default_user_lead_time : Int
deriving DecidableEq, Repr

/-- ensure_user_defaults clamps a negative default lead time to 0. -/
def clamp_lead (x : Int) : Int := if x < 0 then 0 else x

/-- SqliteMeetingStorage.get_user_settings: the stored row normalized by
ensure_user_defaults, or fresh defaults for an unknown user. -/
def Storage.get_user_settings (s : Storage) (uid : Int) : UserSettings :=
  match s.users.find? (fun u => u.id == uid) with
  | some u => { u with default_lead_time := clamp_lead u.default_lead_time }
  | none => { id := uid, default_lead_time := clamp_lead s.default_user_lead_time }

/-- SqliteMeetingStorage.list_meetings: all non-canceled meetings. -/
def Storage.list_meetings (s : Storage) : List Meeting :=
  s.meetings.filter (fun m => !(m.status == "canceled"))

/-- SqliteMeetingStorage.get_meeting: lookup by id, canceled included. -/
def Storage.get_meeting (s : Storage) (meeting_id : String) : Option Meeting :=
  s.meetings.find? (fun m => m.id == meeting_id)

/-- SqliteMeetingStorage.get_chat. -/
def Storage.get_chat (s : Storage) (chat_id : Int) : Option ChatSettings :=
  s.chats.find? (fun c => c.id == chat_id)

/-- SqliteMeetingStorage.is_reminder_sent: SELECT from chat_reminder_log. -/
def Storage.is_reminder_sent (s : Storage) (meeting_id : String) (chat_id lead_time : Int) : Bool :=
  decide ((chat_id, meeting_id, lead_time) ∈ s.reminder_log)

/-- SqliteMeetingStorage.mark_reminder_sent: INSERT OR IGNORE into
chat_reminder_log (a no-op when the primary key (chat_id, meeting_id,
lead_seconds) is already present); for lead time 0 also set the meeting row
reminder_sent flag; record an audit entry. -/
def Storage.mark_reminder_sent (s : Storage) (meeting_id : String) (chat_id lead_time : Int) :
    Storage :=
  let entry : Int × String × Int := (chat_id, meeting_id, lead_time)
  let log := if entry ∈ s.reminder_log then s.reminder_log else s.reminder_log ++ [entry]
  let meetings :=
    if lead_time = 0 then
      s.meetings.map (fun m => if m.id = meeting_id then { m with reminder_sent := true } else m)
    else s.meetings
  { s with reminder_log := log, meetings := meetings,
           audit_log := s.audit_log ++ [("reminder_sent", meeting_id)] }

/-- SqliteMeetingStorage.cancel_meeting: when a row with the id exists
(UPDATE rowcount nonzero) set its status to canceled and DELETE the meeting
from chat_reminder_log. -/
def Storage.cancel_meeting (s : Storage) (meeting_id : String) : Bool × Storage :=
  if s.meetings.any (fun m => m.id == meeting_id) then
    (true,
      { s with
        meetings := s.meetings.map
          (fun m => if m.id = meeting_id then { m with status := "canceled" } else m),
        reminder_log := s.reminder_log.filter (fun e => !(e.2.1 == meeting_id)),
        audit_log := s.audit_log ++ [("meeting_canceled", meeting_id)] })
  else (false, s)

/-- SqliteMeetingStorage.reschedule_meeting: when the row exists, set the new
scheduled_at, status moved, reminder_sent 0, and DELETE the meeting from
chat_reminder_log. -/
def Storage.reschedule_meeting (s : Storage) (meeting_id : String) (t : Int) : Bool × Storage :=
  if s.meetings.any (fun m => m.id == meeting_id) then
    (true,
      { s with
        meetings := s.meetings.map
          (fun m =>
            if m.id = meeting_id then
              { m with scheduled_at := t, status := "moved", reminder_sent := false }
            else m),
        reminder_log := s.reminder_log.filter (fun e => !(e.2.1 == meeting_id)),
        audit_log := s.audit_log ++ [("meeting_updated", meeting_id)] })
  else (false, s)

/-- Field updates of SqliteMeetingStorage.update_meeting on one meeting row
(title stands for the plain text fields; a new scheduled_at also forces
status moved and reminder_sent 0). -/
def Meeting.applyUpdate (m : Meeting) (title : Option String) (sched : Option Int) : Meeting :=
  let m1 := match title with
    | some t => { m with title := t }
    | none => m
  match sched with
  | some ts => { m1 with scheduled_at := ts, status := "moved", reminder_sent := false }
  | none => m1

/-- SqliteMeetingStorage.update_meeting: with no fields given return the
current row; otherwise when the row exists apply the updates and, exactly
when scheduled_at changed, DELETE the meeting from chat_reminder_log. -/
def Storage.update_meeting (s : Storage) (meeting_id : String)
    (title : Option String) (sched : Option Int) : Storage × Option Meeting :=
  if title = none ∧ sched = none then (s, s.get_meeting meeting_id)
  else if s.meetings.any (fun m => m.id == meeting_id) then
    let meetings := s.meetings.map
      (fun m => if m.id = meeting_id then m.applyUpdate title sched else m)
    let log := match sched with
      | some _ => s.reminder_log.filter (fun e => !(e.2.1 == meeting_id))
      | none => s.reminder_log
    let s' := { s with meetings := meetings, reminder_log := log,
                       audit_log := s.audit_log ++ [("meeting_updated", meeting_id)] }
    (s', s'.get_meeting meeting_id)
  else (s, none)

/-- ReminderService._resolve_lead_times, as a function of the organizer
default lead time and the chat lead times (the service default list is the
first argument). -/
def resolve_lead_times (defaults : List Int) (user_lead : Int) (chat_leads : List Int) :
    List Int :=
  if user_lead = 0 then []
  else if 0 < user_lead then [user_lead]
  else if chat_leads ≠ [] then chat_leads
  else defaults

/-- ReminderService._resolve_lead_times wired to the storage lookups used by
the service (organizer settings via get_user_settings). -/
def service_resolve (defaults : List Int) (s : Storage) (m : Meeting) (chat : ChatSettings) :
    List Int :=
  resolve_lead_times defaults (s.get_user_settings m.organizer_id).default_lead_time
    chat.lead_times

/-- ReminderService.__init__ normalization of the configured default lead
times: clamp negatives to 0, deduplicate, sort ascending, and fall back to
the single lead time 0 when the result is empty. -/
def reminder_default_lead_times (lead_times : List Int) : List Int :=
  if ((lead_times.map (fun lt => max 0 lt)).toFinset.sort (· ≤ ·)) = [] then [0]
  else ((lead_times.map (fun lt => max 0 lt)).toFinset.sort (· ≤ ·))

/-- C1: ReminderService._resolve_lead_times resolves the applicable lead
times with the precedence: an organizer default lead time above 0 wins and
is the single applicable lead time; exactly 0 disables reminders for the
meeting (empty result); otherwise the chat lead times apply when non-empty;
otherwise the service default lead times apply. -/
theorem resolve_lead_times_precedence (defaults : List Int) (user_lead : Int)
    (chat_leads : List Int) :
    (0 < user_lead → resolve_lead_times defaults user_lead chat_leads = [user_lead])
    ∧ (user_lead = 0 → resolve_lead_times defaults user_lead chat_leads = [])
    ∧ (user_lead < 0 → chat_leads ≠ [] →
        resolve_lead_times defaults user_lead chat_leads = chat_leads)
    ∧ (user_lead < 0 → chat_leads = [] →
        resolve_lead_times defaults user_lead chat_leads = defaults) := by
  refine ⟨fun h => ?_, fun h => ?_, fun h hne => ?_, fun h hnil => ?_⟩
  · rw [resolve_lead_times, if_neg (by omega), if_pos h]
  · rw [resolve_lead_times, if_pos h]
  · rw [resolve_lead_times, if_neg (by omega), if_neg (by omega), if_pos hne]
  · rw [resolve_lead_times, if_neg (by omega), if_neg (by omega),
      if_neg (by simp [hnil])]

/-- Concrete instances of the lead-time precedence theorem. -/
theorem resolve_lead_times_precedence_witness :
    resolve_lead_times [1800, 600] 900 [300] = [900]
    ∧ resolve_lead_times [1800, 600] 0 [300] = []
    ∧ resolve_lead_times [1800, 600] (-1) [300] = [300]
    ∧ resolve_lead_times [1800, 600] (-1) [] = [1800, 600] :=
  ⟨(resolve_lead_times_precedence [1800, 600] 900 [300]).1 (by decide),
   (resolve_lead_times_precedence [1800, 600] 0 [300]).2.1 rfl,
   (resolve_lead_times_precedence [1800, 600] (-1) [300]).2.2.1 (by decide) (by decide),
   (resolve_lead_times_precedence [1800, 600] (-1) []).2.2.2 (by decide) rfl⟩

/-- C10: the service default lead times computed by ReminderService.__init__
are strictly sorted (hence duplicate-free), non-empty and non-negative;
negatives are clamped to 0; the empty input falls back to the single lead
time 0; for a non-empty input the members are exactly the clamped inputs. -/
theorem default_lead_times_normalized (lead_times : List Int) :
    (reminder_default_lead_times lead_times).Sorted (· < ·)
    ∧ (reminder_default_lead_times lead_times).Nodup
    ∧ reminder_default_lead_times lead_times ≠ []
    ∧ (∀ x ∈ reminder_default_lead_times lead_times, 0 ≤ x)
    ∧ (lead_times = [] → reminder_default_lead_times lead_times = [0])
    ∧ (lead_times ≠ [] → ∀ x : Int,
        (x ∈ reminder_default_lead_times lead_times ↔ ∃ y ∈ lead_times, x = max 0 y)) := by
  unfold reminder_default_lead_times
  split_ifs with hnil
  · refine ⟨List.sorted_singleton 0, List.nodup_singleton 0, by simp, by simp,
      fun _ => rfl, fun hne x => ?_⟩
    exfalso
    rcases List.exists_mem_of_ne_nil lead_times hne with ⟨y, hy⟩
    have : max 0 y ∈ (lead_times.map (fun lt => max 0 lt)).toFinset := by
      simp only [List.mem_toFinset, List.mem_map]
      exact ⟨y, hy, rfl⟩
    rw [← Finset.mem_sort (α := Int) (· ≤ ·), hnil] at this
    simp at this
  · refine ⟨Finset.sort_sorted_lt _, Finset.sort_nodup _ _, hnil, fun x hx => ?_,
      fun hemp => ?_, fun _ x => ?_⟩
    · rw [Finset.mem_sort, List.mem_toFinset] at hx
      rcases List.mem_map.mp hx with ⟨y, _, rfl⟩
      exact le_max_left 0 y
    · subst hemp; simp at hnil
    · rw [Finset.mem_sort, List.mem_toFinset, List.mem_map]
      constructor
      · rintro ⟨y, hy, rfl⟩; exact ⟨y, hy, rfl⟩
      · rintro ⟨y, hy, rfl⟩; exact ⟨y, hy, rfl⟩

/-- Concrete instances of the default lead-time normalization theorem. -/
theorem default_lead_times_normalized_witness :
    reminder_default_lead_times [] = [0]
    ∧ ((600 : Int) ∈ reminder_default_lead_times [-5, 600, 600, 60] ↔
        ∃ y ∈ [(-5 : Int), 600, 600, 60], (600 : Int) = max 0 y) :=
  ⟨(default_lead_times_normalized []).2.2.2.2.1 rfl,
   (default_lead_times_normalized [-5, 600, 600, 60]).2.2.2.2.2 (by decide) 600⟩

/-- C3: rescheduling a meeting that exists in storage (directly or through
update_meeting with a new scheduled_at) clears every idempotency-ledger entry
of the meeting: afterwards is_reminder_sent is false for every chat and every
lead time. -/
theorem reschedule_clears_ledger (s : Storage) (mid : String) (t : Int)
    (hm : s.meetings.any (fun m => m.id == mid) = true) :
    (∀ c l : Int, ((s.reschedule_meeting mid t).2).is_reminder_sent mid c l = false)
    ∧ (∀ (title : Option String) (c l : Int),
        ((s.update_meeting mid title (some t)).1).is_reminder_sent mid c l = false) := by
  constructor
  · intro c l
    rw [Storage.reschedule_meeting, if_pos hm]
    simp [Storage.is_reminder_sent, List.mem_filter]
  · intro title c l
    rw [Storage.update_meeting, if_neg (by simp), if_pos hm]
    simp [Storage.is_reminder_sent, List.mem_filter]

/-- Concrete instance of the ledger-clearing theorem: one meeting, one
previously sent reminder, rescheduled. -/
theorem reschedule_clears_ledger_witness :
    (let s : Storage :=
      { meetings := [⟨"m1", "demo", 1000, 7, some 1, "planned", false⟩],
        chats := [⟨1, [600]⟩], users := [], reminder_log := [(1, "m1", 600)],
        audit_log := [], default_user_lead_time := 900 }
    ((s.reschedule_meeting "m1" 2000).2).is_reminder_sent "m1" 1 600 = false) :=
  (reschedule_clears_ledger _ "m1" 2000 (by decide)).1 1 600

/-- One mutation of SqliteMeetingStorage relevant to the reminder ledger. -/
inductive StorageOp where
  | mark (meeting_id : String) (chat_id lead_time : Int)
  | cancel (meeting_id : String)
  | reschedule (meeting_id : String) (scheduled_at : Int)
  | update (meeting_id : String) (title : Option String) (sched : Option Int)
deriving DecidableEq, Repr

/-- Interpret one storage mutation. -/
def applyOp (s : Storage) : StorageOp → Storage
  | .mark mid c l => s.mark_reminder_sent mid c l
  | .cancel mid => (s.cancel_meeting mid).2
  | .reschedule mid t => (s.reschedule_meeting mid t).2
  | .update mid title sched => (s.update_meeting mid title sched).1

/-- Interpret a sequence of storage mutations. -/
def applyOps (s : Storage) (ops : List StorageOp) : Storage :=
  ops.foldl applyOp s

/-- Whether the operation deletes the ledger entries of the given meeting
(cancel, reschedule, or update with a new scheduled_at). -/
def clearsMeeting (op : StorageOp) (mid : String) : Bool :=
  match op with
  | .mark _ _ _ => false
  | .cancel m => m == mid
  | .reschedule m _ => m == mid
  | .update m _ sched => m == mid && sched.isSome

lemma op_preserves_sent (mid : String) (c l : Int) (op : StorageOp)
    (hop : clearsMeeting op mid = false) (s : Storage)
    (hs : s.is_reminder_sent mid c l = true) :
    (applyOp s op).is_reminder_sent mid c l = true := by
  cases op with
  | mark mid' c' l' =>
      simp only [Storage.is_reminder_sent, decide_eq_true_eq] at hs ⊢
      simp only [applyOp, Storage.mark_reminder_sent]
      split_ifs with h
      · exact hs
      · exact List.mem_append_left _ hs
  | cancel mid' =>
      simp only [clearsMeeting, beq_eq_false_iff_ne] at hop
      simp only [applyOp, Storage.cancel_meeting]
      split_ifs with h
      · simp only [Storage.is_reminder_sent, decide_eq_true_eq, List.mem_filter] at hs ⊢
        exact ⟨hs, by simp [Ne.symm hop]⟩
      · exact hs
  | reschedule mid' t =>
      simp only [clearsMeeting, beq_eq_false_iff_ne] at hop
      simp only [applyOp, Storage.reschedule_meeting]
      split_ifs with h
      · simp only [Storage.is_reminder_sent, decide_eq_true_eq, List.mem_filter] at hs ⊢
        exact ⟨hs, by simp [Ne.symm hop]⟩
      · exact hs
  | update mid' title sched =>
      simp only [applyOp, Storage.update_meeting]
      split_ifs with h1 h2
      · exact hs
      · cases sched with
        | none => exact hs
        | some ts =>
            simp only [clearsMeeting, Bool.and_eq_false_iff] at hop
            rcases hop with hop | hop
            · rw [beq_eq_false_iff_ne] at hop
              simp only [Storage.is_reminder_sent, decide_eq_true_eq, List.mem_filter] at hs ⊢
              exact ⟨hs, by simp [Ne.symm hop]⟩
            · simp at hop
      · exact hs

lemma ops_preserve_sent (mid : String) (c l : Int) :
    ∀ (ops : List StorageOp) (s : Storage),
      (∀ op ∈ ops, clearsMeeting op mid = false) →
      s.is_reminder_sent mid c l = true →
      (applyOps s ops).is_reminder_sent mid c l = true := by
  intro ops
  induction ops with
  | nil => intro s _ hs; exact hs
  | cons op rest ih =>
      intro s hcl hs
      have h1 : (applyOp s op).is_reminder_sent mid c l = true :=
        op_preserves_sent mid c l op (hcl op (List.mem_cons_self op rest)) s hs
      have : applyOps s (op :: rest) = applyOps (applyOp s op) rest := by
        simp [applyOps]
      rw [this]
      exact ih (applyOp s op) (fun o ho => hcl o (List.mem_cons_of_mem _ ho)) h1

/-- C9: mark_reminder_sent is idempotent on the ledger state (the
chat_reminder_log rows and the meeting rows), after it is_reminder_sent
answers true, and the answer stays true under any sequence of storage
mutations that does not cancel or reschedule the meeting (directly or via
update_meeting with a new scheduled_at). -/
theorem mark_reminder_idempotent_durable (s : Storage) (mid : String) (c l : Int) :
    ((s.mark_reminder_sent mid c l).mark_reminder_sent mid c l).reminder_log
        = (s.mark_reminder_sent mid c l).reminder_log
    ∧ ((s.mark_reminder_sent mid c l).mark_reminder_sent mid c l).meetings
        = (s.mark_reminder_sent mid c l).meetings
    ∧ (s.mark_reminder_sent mid c l).is_reminder_sent mid c l = true
    ∧ ∀ ops : List StorageOp, (∀ op ∈ ops, clearsMeeting op mid = false) →
        (applyOps (s.mark_reminder_sent mid c l) ops).is_reminder_sent mid c l = true := by
  have hsent : (s.mark_reminder_sent mid c l).is_reminder_sent mid c l = true := by
    simp only [Storage.mark_reminder_sent, Storage.is_reminder_sent, decide_eq_true_eq]
    split_ifs with h
    · exact h
    · exact List.mem_append_right _ (List.mem_singleton_self _)
  refine ⟨?_, ?_, hsent, ?_⟩
  · simp only [Storage.mark_reminder_sent]
    rw [if_pos]
    rw [Storage.is_reminder_sent, decide_eq_true_eq] at hsent
    · exact hsent
  · simp only [Storage.mark_reminder_sent]
    split_ifs with h
    · rw [List.map_map]
      apply List.map_congr_left
      intro m _
      by_cases hid : m.id = mid
      · simp [Function.comp, hid]
      · simp [Function.comp, hid]
    · rfl
  · intro ops hcl
    exact ops_preserve_sent mid c l ops _ hcl hsent

/-- Concrete instance of the mark idempotence and durability theorem. -/
theorem mark_reminder_idempotent_durable_witness :
    (let s : Storage :=
      { meetings := [⟨"m1", "demo", 1000, 7, some 1, "planned", false⟩],
        chats := [⟨1, [600]⟩], users := [], reminder_log := [],
        audit_log := [], default_user_lead_time := 900 }
    (∀ op ∈ [StorageOp.cancel "other", StorageOp.update "m1" (some "t2") none],
        clearsMeeting op "m1" = false)
    ∧ (applyOps (s.mark_reminder_sent "m1" 1 600)
        [StorageOp.cancel "other", StorageOp.update "m1" (some "t2") none]).is_reminder_sent
          "m1" 1 600 = true) :=
  ⟨by decide,
   (mark_reminder_idempotent_durable _ "m1" 1 600).2.2.2 _ (by decide)⟩

/-- Association list holding the ClickGuard locks dict: replace the value
stored under a key. -/
def setLock (l : List ((Int × Int) × ℚ)) (k : Int × Int) (v : ℚ) :
    List ((Int × Int) × ℚ) :=
  (l.filter (fun e => !(e.1 == k))) ++ [(k, v)]

/-- Lookup of the expiry stored under a key (the locks dict access). -/
def lookupLock (l : List ((Int × Int) × ℚ)) (k : Int × Int) : Option ℚ :=
  (l.find? (fun e => e.1 == k)).map (fun e => e.2)

/-- ClickGuard (telegram_meeting_bot/utils/locks.py): a fixed TTL window and
the per-(chat_id, message_id) expiry map.  The asyncio mutex serializes the
calls, so the operations are modelled sequentially; `now` is the monotonic
clock value at the call. -/
structure ClickGuard where
  window : ℚ
  locks : List ((Int × Int) × ℚ)
deriving DecidableEq, Repr

/-- ClickGuard.acquire: refuse while an unexpired entry exists, otherwise
store a fresh expiry now + window and succeed. -/
def ClickGuard.acquire (g : ClickGuard) (chat_id message_id : Int) (now : ℚ) :
    Bool × ClickGuard :=
  let key := (chat_id, message_id)
  match lookupLock g.locks key with
  | some exp =>
      if now < exp then (false, g)
      else (true, { g with locks := setLock g.locks key (now + g.window) })
  | none => (true, { g with locks := setLock g.locks key (now + g.window) })

/-- ClickGuard.release: drop the entry of the key. -/
def ClickGuard.release (g : ClickGuard) (chat_id message_id : Int) : ClickGuard :=
  { g with locks := g.locks.filter (fun e => !(e.1 == (chat_id, message_id))) }

/-- A serialized sequence of acquire calls for one key at the given clock
values, returning the answers and the final guard state. -/
def ClickGuard.acquireSeq : ClickGuard → Int → Int → List ℚ → List Bool × ClickGuard
  | g, _, _, [] => ([], g)
  | g, c, m, t :: ts =>
      let r := g.acquire c m t
      let rest := ClickGuard.acquireSeq r.2 c m ts
      (r.1 :: rest.1, rest.2)

lemma lookupLock_setLock (l : List ((Int × Int) × ℚ)) (k : Int × Int) (v : ℚ) :
    lookupLock (setLock l k v) k = some v := by
  unfold lookupLock setLock
  rw [List.find?_append]
  have hnone : (l.filter (fun e => !(e.1 == k))).find? (fun e => e.1 == k) = none := by
    rw [List.find?_eq_none]
    intro x hx
    rw [List.mem_filter] at hx
    simpa using hx.2
  rw [hnone]
  simp

lemma acquire_true_state (g : ClickGuard) (c m : Int) (t : ℚ)
    (hacq : (g.acquire c m t).1 = true) :
    (g.acquire c m t).2 =
      { g with locks := setLock g.locks (c, m) (t + g.window) } := by
  unfold ClickGuard.acquire at hacq ⊢
  cases hlk : lookupLock g.locks (c, m) with
  | none => simp [hlk]
  | some exp =>
      simp only [hlk] at hacq ⊢
      by_cases h : t < exp
      · rw [if_pos h] at hacq; simp at hacq
      · rw [if_neg h]

lemma acquire_armed_fails (g : ClickGuard) (c m : Int) (t t' : ℚ)
    (hacq : (g.acquire c m t).1 = true) (ht' : t' < t + g.window) :
    (g.acquire c m t).2.acquire c m t' = (false, (g.acquire c m t).2) := by
  rw [acquire_true_state g c m t hacq]
  simp only [ClickGuard.acquire, lookupLock_setLock]
  rw [if_pos ht']

/-- C8: after a successful ClickGuard.acquire for a key, every further
acquire of that key strictly inside the TTL window returns false and leaves
the guard unchanged (so in any serialized interleaving exactly the one
acquire returns true); the first acquire after release of the key succeeds,
and an acquire at or after the expiry instant succeeds again. -/
theorem click_guard_at_most_once (g : ClickGuard) (c m : Int) (t : ℚ)
    (hacq : (g.acquire c m t).1 = true) :
    (∀ t' : ℚ, t' < t + g.window →
        ((g.acquire c m t).2.acquire c m t').1 = false
        ∧ ((g.acquire c m t).2.acquire c m t').2 = (g.acquire c m t).2)
    ∧ (∀ ts : List ℚ, (∀ u ∈ ts, u < t + g.window) →
        (g.acquire c m t).2.acquireSeq c m ts
          = (List.replicate ts.length false, (g.acquire c m t).2))
    ∧ (∀ t'' : ℚ, (((g.acquire c m t).2.release c m).acquire c m t'').1 = true)
    ∧ (∀ t'' : ℚ, t + g.window ≤ t'' → ((g.acquire c m t).2.acquire c m t'').1 = true) := by
  refine ⟨fun t' ht' => ?_, fun ts hts => ?_, fun t'' => ?_, fun t'' ht'' => ?_⟩
  · rw [acquire_armed_fails g c m t t' hacq ht']
    exact ⟨rfl, rfl⟩
  · induction ts with
    | nil => rfl
    | cons u us ih =>
        have hu := acquire_armed_fails g c m t u hacq (hts u (List.mem_cons_self u us))
        rw [ClickGuard.acquireSeq]
        simp only [hu]
        rw [ih (fun x hx => hts x (List.mem_cons_of_mem _ hx))]
        rfl
  · rw [acquire_true_state g c m t hacq]
    have hnone : lookupLock ((setLock g.locks (c, m) (t + g.window)).filter
        (fun e => !(e.1 == (c, m)))) (c, m) = none := by
      unfold lookupLock
      rw [List.find?_eq_none.mpr]
      · rfl
      · intro x hx
        rw [List.mem_filter] at hx
        simpa using hx.2
    simp only [ClickGuard.release, ClickGuard.acquire, hnone]
  · rw [acquire_true_state g c m t hacq]
    simp only [ClickGuard.acquire, lookupLock_setLock]
    rw [if_neg (not_lt.mpr ht'')]

/-- Concrete instance of the click guard theorem: window 20, acquire at 0,
duplicate click at 5 refused, acquire at 20 succeeds again. -/
theorem click_guard_at_most_once_witness :
    ((⟨20, []⟩ : ClickGuard).acquire 1 2 0).1 = true
    ∧ ((((⟨20, []⟩ : ClickGuard).acquire 1 2 0).2).acquire 1 2 5).1 = false
    ∧ ((((⟨20, []⟩ : ClickGuard).acquire 1 2 0).2).acquire 1 2 20).1 = true :=
  ⟨rfl,
   ((click_guard_at_most_once ⟨20, []⟩ 1 2 0 rfl).1 5 (by norm_num)).1,
   (click_guard_at_most_once ⟨20, []⟩ 1 2 0 rfl).2.2.2 20 (by norm_num)⟩

/-- Outcome of one underlying Telegram API invocation, as classified by the
except clauses of TelegramSender._run_worker (sender.py). -/
inductive TgOutcome where
  | success
  | timeout
  | retryAfter (hint : Option ℚ)
  | badRequest
  | serverError
  | networkError
  | httpError
  | unexpected
deriving DecidableEq, Repr

/-- The worker handles these outcomes through _handle_retry (a transient
failure); a rate-limited response counts only when it carries its wait
hint. -/
def isTransient : TgOutcome → Bool
  | .timeout => true
  | .serverError => true
  | .networkError => true
  | .httpError => true
  | .retryAfter (some _) => true
  | _ => false

/-- How _run_worker reacts to one outcome: resolve the future, fail the
future, or hand over to _handle_retry with the given wait hint and
hard-limit flag. -/
inductive OutcomeClass where
  | done
  | permanent
  | retryable (hint : Option ℚ) (hard : Bool)
deriving DecidableEq, Repr

/-- The except-clause dispatch of TelegramSender._run_worker: timeout, 5xx,
network and http errors retry with backoff; TelegramRetryAfter retries with
the server hint under hard_limit; TelegramBadRequest and unexpected errors
fail the future immediately. -/
def classify : TgOutcome → OutcomeClass
  | .success => .done
  | .badRequest => .permanent
  | .unexpected => .permanent
  | .timeout => .retryable none false
  | .serverError => .retryable none false
  | .networkError => .retryable none false
  | .httpError => .retryable none false
  | .retryAfter h => .retryable h true

/-- What TelegramSender._handle_retry decides for one failure. -/
inductive RetryDecision where
  | fail
  | retry (delay : ℚ)
deriving DecidableEq, Repr

/-- TelegramSender._handle_retry: increment attempts; fail when the budget is
reached or when a hard-limited failure carries no wait hint; otherwise sleep
the hint, or the capped exponential backoff, and requeue. -/
def handle_retry_decision (attempts max_attempts : Nat) (hint : Option ℚ)
    (hard_limit : Bool) (base mult maxd : ℚ) : RetryDecision :=
  if max_attempts ≤ attempts + 1 ∨ (hard_limit = true ∧ hint = none) then .fail
  else
    match hint with
    | some dl => .retry dl
    | none => .retry (min maxd (base * mult ^ attempts))

/-- Final state of one submitted request. -/
inductive JobResult where
  | ok
  | err (o : TgOutcome)
  | exhaustedTrace
deriving DecidableEq, Repr

/-- The life of one _SendJob through TelegramSender._run_worker, driven by
the oracle list giving the outcome of each successive underlying invocation:
returns how the future is resolved and how many underlying invocations
happened.  A requeued job re-enters the same per-profile loop, so the
per-job trace is this recursion. -/
def run_send_job (maxA : Nat) (b m d : ℚ) : List TgOutcome → Nat → JobResult × Nat
  | [], _ => (.exhaustedTrace, 0)
  | o :: rest, attempts =>
    match classify o with
    | .done => (.ok, 1)
    | .permanent => (.err o, 1)
    | .retryable hint hard =>
      match handle_retry_decision attempts maxA hint hard b m d with
      | .fail => (.err o, 1)
      | .retry _ =>
          let r := run_send_job maxA b m d rest (attempts + 1)
          (r.1, r.2 + 1)

lemma transient_step_retry (maxA : Nat) (b m d : ℚ) (o : TgOutcome)
    (rest : List TgOutcome) (attempts : Nat)
    (h : isTransient o = true) (hlt : attempts + 1 < maxA) :
    run_send_job maxA b m d (o :: rest) attempts
      = ((run_send_job maxA b m d rest (attempts + 1)).1,
         (run_send_job maxA b m d rest (attempts + 1)).2 + 1) := by
  have hnle : ¬ (maxA ≤ attempts + 1) := by omega
  cases o with
  | timeout => simp [run_send_job, classify, handle_retry_decision, hnle]
  | serverError => simp [run_send_job, classify, handle_retry_decision, hnle]
  | networkError => simp [run_send_job, classify, handle_retry_decision, hnle]
  | httpError => simp [run_send_job, classify, handle_retry_decision, hnle]
  | retryAfter hint =>
      cases hint with
      | none => simp [isTransient] at h
      | some dl => simp [run_send_job, classify, handle_retry_decision, hnle]
  | success => simp [isTransient] at h
  | badRequest => simp [isTransient] at h
  | unexpected => simp [isTransient] at h

lemma transient_step_fail (maxA : Nat) (b m d : ℚ) (o : TgOutcome)
    (rest : List TgOutcome) (attempts : Nat)
    (h : isTransient o = true) (hge : maxA ≤ attempts + 1) :
    run_send_job maxA b m d (o :: rest) attempts = (.err o, 1) := by
  cases o with
  | timeout => simp [run_send_job, classify, handle_retry_decision, hge]
  | serverError => simp [run_send_job, classify, handle_retry_decision, hge]
  | networkError => simp [run_send_job, classify, handle_retry_decision, hge]
  | httpError => simp [run_send_job, classify, handle_retry_decision, hge]
  | retryAfter hint =>
      cases hint with
      | none => simp [isTransient] at h
      | some dl => simp [run_send_job, classify, handle_retry_decision, hge]
  | success => simp [isTransient] at h
  | badRequest => simp [isTransient] at h
  | unexpected => simp [isTransient] at h

lemma run_transient_then_ok (maxA : Nat) (b m d : ℚ) (rest : List TgOutcome) :
    ∀ (outs : List TgOutcome) (attempts : Nat),
      (∀ o ∈ outs, isTransient o = true) → attempts + outs.length < maxA →
      run_send_job maxA b m d (outs ++ TgOutcome.success :: rest) attempts
        = (.ok, outs.length + 1) := by
  intro outs
  induction outs with
  | nil =>
      intro attempts _ _
      simp [run_send_job, classify]
  | cons o os ih =>
      intro attempts hall hlt
      have ho : isTransient o = true := hall o (List.mem_cons_self o os)
      have hlt1 : attempts + 1 < maxA := by
        simp only [List.length_cons] at hlt; omega
      rw [List.cons_append, transient_step_retry maxA b m d o _ attempts ho hlt1]
      rw [ih (attempts + 1) (fun x hx => hall x (List.mem_cons_of_mem _ hx))
        (by simp only [List.length_cons] at hlt ⊢; omega)]
      simp

lemma run_transient_exhaust (maxA : Nat) (b m d : ℚ) (rest : List TgOutcome)
    (olast : TgOutcome) (hlast : isTransient olast = true) :
    ∀ (outs : List TgOutcome) (attempts : Nat),
      (∀ o ∈ outs, isTransient o = true) → attempts + outs.length + 1 = maxA →
      run_send_job maxA b m d ((outs ++ [olast]) ++ rest) attempts
        = (.err olast, outs.length + 1) := by
  intro outs
  induction outs with
  | nil =>
      intro attempts _ heq
      simp only [List.length_nil] at heq
      have hshape : (([] : List TgOutcome) ++ [olast]) ++ rest = olast :: rest := by simp
      rw [hshape, transient_step_fail maxA b m d olast rest attempts hlast (by omega)]
      simp
  | cons o os ih =>
      intro attempts hall heq
      have ho : isTransient o = true := hall o (List.mem_cons_self o os)
      have hlt1 : attempts + 1 < maxA := by
        simp only [List.length_cons] at heq; omega
      have hshape : ((o :: os) ++ [olast]) ++ rest = o :: ((os ++ [olast]) ++ rest) := by
        simp
      rw [hshape, transient_step_retry maxA b m d o _ attempts ho hlt1]
      rw [ih (attempts + 1) (fun x hx => hall x (List.mem_cons_of_mem _ hx))
        (by simp only [List.length_cons] at heq ⊢; omega)]
      simp

/-- C5: a request whose underlying call fails transiently N times with
N < maxAttempts and then succeeds performs exactly N+1 underlying
invocations and resolves the future successfully; when the transient
failures reach maxAttempts, exactly maxAttempts invocations happen and the
future is resolved with the last error. -/
theorem sender_retry_budget (maxA : Nat) (b m d : ℚ) :
    (∀ (outs rest : List TgOutcome), (∀ o ∈ outs, isTransient o = true) →
      outs.length < maxA →
      run_send_job maxA b m d (outs ++ TgOutcome.success :: rest) 0
        = (.ok, outs.length + 1))
    ∧ (∀ (outs rest : List TgOutcome) (olast : TgOutcome),
        (∀ o ∈ outs, isTransient o = true) → isTransient olast = true →
        outs.length + 1 = maxA →
        run_send_job maxA b m d ((outs ++ [olast]) ++ rest) 0 = (.err olast, maxA)) := by
  constructor
  · intro outs rest hall hlen
    exact run_transient_then_ok maxA b m d rest outs 0 hall (by omega)
  · intro outs rest olast hall hlast hlen
    have := run_transient_exhaust maxA b m d rest olast hlast outs 0 hall (by omega)
    rw [this, hlen]

/-- Concrete instances of the retry-budget theorem: two transient failures
then success under budget 3 give three invocations and success; three
transient failures exhaust budget 3 with the last error surfaced. -/
theorem sender_retry_budget_witness :
    (∀ o ∈ [TgOutcome.serverError, TgOutcome.timeout], isTransient o = true)
    ∧ run_send_job 3 1 2 5
        ([TgOutcome.serverError, TgOutcome.timeout] ++ TgOutcome.success :: []) 0
        = (.ok, 3)
    ∧ run_send_job 3 1 2 5
        (([TgOutcome.timeout, TgOutcome.serverError] ++ [TgOutcome.networkError]) ++ []) 0
        = (.err TgOutcome.networkError, 3) :=
  ⟨by decide,
   (sender_retry_budget 3 1 2 5).1 [TgOutcome.serverError, TgOutcome.timeout] []
     (by decide) (by decide),
   (sender_retry_budget 3 1 2 5).2 [TgOutcome.timeout, TgOutcome.serverError] []
     TgOutcome.networkError (by decide) (by decide) (by decide)⟩

/-- Counterexample to C7 as stated: with maxAttempts 1, a rate-limited
response that does carry a wait hint is not retried at all — the attempt
budget check in _handle_retry fires first and the request fails after one
invocation.  If the worker always slept the hint and retried once, the
result here would be (.ok, 2) using the following success. -/
theorem retry_after_claim_counterexample :
    run_send_job 1 1 2 5 [TgOutcome.retryAfter (some 5), TgOutcome.success] 0
      = (.err (TgOutcome.retryAfter (some 5)), 1)
    ∧ run_send_job 1 1 2 5 [TgOutcome.retryAfter (some 5), TgOutcome.success] 0
      ≠ (.ok, 2) := by
  constructor
  · rfl
  · intro h
    rw [show run_send_job 1 1 2 5 [TgOutcome.retryAfter (some 5), TgOutcome.success] 0
        = (.err (TgOutcome.retryAfter (some 5)), 1) from rfl] at h
    simp at h

/-- C7 amended: when a rate-limited response carries a server wait hint and
the attempt budget is not yet exhausted, the worker sleeps exactly the
hinted duration and requeues the request once; with the budget exhausted the
request fails with that error instead; a rate-limited response without a
wait hint is a hard failure after its single invocation, never retried. -/
theorem retry_after_hint_semantics (attempts maxA : Nat) (h b m d : ℚ) :
    (attempts + 1 < maxA →
      handle_retry_decision attempts maxA (some h) true b m d = .retry h)
    ∧ handle_retry_decision attempts maxA none true b m d = .fail
    ∧ (maxA ≤ attempts + 1 →
      handle_retry_decision attempts maxA (some h) true b m d = .fail)
    ∧ (∀ rest : List TgOutcome,
        run_send_job maxA b m d (TgOutcome.retryAfter none :: rest) attempts
          = (.err (TgOutcome.retryAfter none), 1))
    ∧ (attempts + 1 < maxA → ∀ rest : List TgOutcome,
        run_send_job maxA b m d (TgOutcome.retryAfter (some h) :: rest) attempts
          = ((run_send_job maxA b m d rest (attempts + 1)).1,
             (run_send_job maxA b m d rest (attempts + 1)).2 + 1)) := by
  refine ⟨fun hlt => ?_, ?_, fun hge => ?_, fun rest => ?_, fun hlt rest => ?_⟩
  · rw [handle_retry_decision, if_neg (by simp; omega)]
  · rw [handle_retry_decision, if_pos (Or.inr ⟨rfl, rfl⟩)]
  · rw [handle_retry_decision, if_pos (Or.inl hge)]
  · simp [run_send_job, classify, handle_retry_decision]
  · exact transient_step_retry maxA b m d (TgOutcome.retryAfter (some h)) rest attempts
      rfl hlt

/-- Concrete instances of the amended rate-limit-hint theorem. -/
theorem retry_after_hint_semantics_witness :
    0 + 1 < 3
    ∧ handle_retry_decision 0 3 (some 7) true 1 2 5 = .retry 7
    ∧ run_send_job 3 1 2 5 [TgOutcome.retryAfter none, TgOutcome.success] 0
        = (.err (TgOutcome.retryAfter none), 1) :=
  ⟨by decide,
   (retry_after_hint_semantics 0 3 7 1 2 5).1 (by decide),
   (retry_after_hint_semantics 0 3 7 1 2 5).2.2.2.1 [TgOutcome.success]⟩

/-- A queued reminder job (_ReminderJob in reminder.py). -/
structure ReminderJob where
  meeting_id : String
  chat_id : Int
  lead_time : Int
  attempts : Nat := 0
deriving DecidableEq, Repr

/-- Identity of a job: (meeting_id, chat_id, lead_time). -/
def ReminderJob.identity (j : ReminderJob) : String × Int × Int :=
  (j.meeting_id, j.chat_id, j.lead_time)

/-- What ReminderService._deliver decides for a popped job before any bot
call: drop it silently (missing meeting or changed chat; or already in the
ledger), re-arm a future timer (not due yet), or attempt the send.  All
drop outcomes return True to the worker without raising. -/
inductive DeliverAction where
  | dropMissing
  | dropSent
  | rearm (due_at : Int)
  | send
deriving DecidableEq, Repr

/-- The re-validation prefix of ReminderService._deliver. -/
def deliver_check (s : Storage) (job : ReminderJob) (now : Int) : DeliverAction :=
  match s.get_meeting job.meeting_id with
  | none => .dropMissing
  | some m =>
    if m.chat_id ≠ some job.chat_id then .dropMissing
    else if s.is_reminder_sent m.id job.chat_id job.lead_time then .dropSent
    else if now < m.scheduled_at - job.lead_time then .rearm (m.scheduled_at - job.lead_time)
    else .send

/-- ReminderService._handle_scheduled_job (the future-timer callback): skip
unless the meeting still exists with the same chat, the lead time is still
applicable, and the reminder is unsent; otherwise build the job to
enqueue. -/
def handle_scheduled_check (defaults : List Int) (s : Storage) (mid : String) (cid lt : Int) :
    Option ReminderJob :=
  match s.get_meeting mid with
  | none => none
  | some m =>
    if m.chat_id ≠ some cid then none
    else
      match s.get_chat cid with
      | none => none
      | some chat =>
        if lt ∈ service_resolve defaults s m chat then
          if s.is_reminder_sent mid cid lt then none
          else some ⟨mid, cid, lt, 0⟩
        else none

/-- Storage in which the organizer override 300 makes lead time 600 no
longer applicable while meeting and chat are intact. -/
def stale_lead_storage : Storage :=
  { meetings := [⟨"m", "demo", 1000, 7, some 1, "planned", false⟩],
    chats := [⟨1, [600]⟩], users := [⟨7, 300⟩], reminder_log := [],
    audit_log := [], default_user_lead_time := 900 }

/-- The single meeting of stale_lead_storage. -/
def stale_lead_meeting : Meeting := ⟨"m", "demo", 1000, 7, some 1, "planned", false⟩

/-- The single chat of stale_lead_storage. -/
def stale_lead_chat : ChatSettings := ⟨1, [600]⟩

/-- Counterexample to C4 as stated: the popped job (meeting m, chat 1, lead
time 600) has a lead time that is no longer applicable (the organizer
override narrowed the applicable lead times to [300]), the meeting exists
with an unchanged chat and nothing is in the ledger — yet _deliver proceeds
to send instead of dropping: the worker pop path never re-checks lead-time
applicability. -/
theorem deliver_stale_lead_counterexample :
    deliver_check stale_lead_storage ⟨"m", 1, 600, 0⟩ 1000 = .send
    ∧ ¬ ((600 : Int) ∈ service_resolve [0] stale_lead_storage stale_lead_meeting stale_lead_chat)
    ∧ stale_lead_storage.get_meeting "m" = some stale_lead_meeting
    ∧ stale_lead_storage.get_chat 1 = some stale_lead_chat := by
  decide

/-- C4 amended: for every popped job, _deliver drops it silently (returning
success to the worker, no send, no exception) when the meeting no longer
exists, when the meeting chat differs from the job chat, or when the
reminder is already marked sent; a not-yet-due job is re-armed instead of
sent.  Lead-time applicability is re-validated only on the scheduled-timer
path (_handle_scheduled_job), which skips the enqueue when the lead time is
no longer applicable. -/
theorem deliver_revalidation (s : Storage) (job : ReminderJob) (now : Int)
    (defaults : List Int) :
    (s.get_meeting job.meeting_id = none → deliver_check s job now = .dropMissing)
    ∧ (∀ m : Meeting, s.get_meeting job.meeting_id = some m →
        m.chat_id ≠ some job.chat_id → deliver_check s job now = .dropMissing)
    ∧ (∀ m : Meeting, s.get_meeting job.meeting_id = some m →
        m.chat_id = some job.chat_id →
        s.is_reminder_sent m.id job.chat_id job.lead_time = true →
        deliver_check s job now = .dropSent)
    ∧ (∀ m : Meeting, s.get_meeting job.meeting_id = some m →
        m.chat_id = some job.chat_id →
        s.is_reminder_sent m.id job.chat_id job.lead_time = false →
        now < m.scheduled_at - job.lead_time →
        deliver_check s job now = .rearm (m.scheduled_at - job.lead_time))
    ∧ (∀ (m : Meeting) (chat : ChatSettings) (mid : String) (cid lt : Int),
        s.get_meeting mid = some m → m.chat_id = some cid → s.get_chat cid = some chat →
        lt ∉ service_resolve defaults s m chat →
        handle_scheduled_check defaults s mid cid lt = none) := by
  refine ⟨fun hnone => ?_, fun m hm hne => ?_, fun m hm hc hs => ?_,
    fun m hm hc hs hdue => ?_, fun m chat mid cid lt hm hc hchat hlt => ?_⟩
  · simp [deliver_check, hnone]
  · simp [deliver_check, hm, hne]
  · simp [deliver_check, hm, hc, hs]
  · simp [deliver_check, hm, hc, hs, hdue]
  · simp [handle_scheduled_check, hm, hc, hchat, hlt]

/-- Concrete instances of the amended re-validation theorem. -/
theorem deliver_revalidation_witness :
    stale_lead_storage.get_meeting "zz" = none
    ∧ deliver_check stale_lead_storage ⟨"zz", 1, 600, 0⟩ 1000 = .dropMissing
    ∧ handle_scheduled_check [0] stale_lead_storage "m" 1 600 = none :=
  ⟨by decide,
   (deliver_revalidation stale_lead_storage ⟨"zz", 1, 600, 0⟩ 1000 [0]).1 (by decide),
   (deliver_revalidation stale_lead_storage ⟨"zz", 1, 600, 0⟩ 1000 [0]).2.2.2.2
     stale_lead_meeting stale_lead_chat "m" 1 600 (by decide) (by decide) (by decide)
     (by decide)⟩

/-- In-memory scheduling state of ReminderService: the PendingSet of job
identities, the asyncio FIFO queue, and the ids of armed APScheduler date
jobs (the reminder timers). -/
structure SchedState where
  pending : List (String × Int × Int)
  queue : List ReminderJob
  timers : List String
deriving DecidableEq, Repr

/-- Set-insert into the PendingSet. -/
def insertIdentity (p : List (String × Int × Int)) (i : String × Int × Int) :
    List (String × Int × Int) :=
  if i ∈ p then p else i :: p

/-- ReminderService._enqueue: without force, a no-op when the identity is
already pending; otherwise record the identity and push the job. -/
def SchedState.enqueue (st : SchedState) (j : ReminderJob) (force : Bool) : SchedState :=
  if force = false ∧ j.identity ∈ st.pending then st
  else { st with pending := insertIdentity st.pending j.identity,
                 queue := st.queue ++ [j] }

/-- APScheduler add_job with replace_existing on a date trigger. -/
def addTimer (ts : List String) (jid : String) : List String :=
  if jid ∈ ts then ts else ts ++ [jid]

/-- ReminderService._remove_scheduler_job. -/
def removeTimer (ts : List String) (jid : String) : List String :=
  ts.filter (fun t => !(t == jid))

/-- ReminderService._job_id. -/
def jobIdStr (mid : String) (cid lt : Int) : String :=
  mid ++ ":" ++ toString cid ++ ":" ++ toString lt

/-- The id prefix used by _remove_all_jobs_for_meeting. -/
def meetingTimerPfx (mid : String) (cid : Int) : String :=
  mid ++ ":" ++ toString cid ++ ":"

/-- The body of the per-lead-time loop of refresh_schedule: skip (and
disarm the timer) when the ledger already has the triple; enqueue and
disarm when due; otherwise arm (or replace) the future timer and keep its
id in the active set. -/
def processLead (s : Storage) (now : Int) (m : Meeting) (cid : Int)
    (acc : SchedState × List String) (lt : Int) : SchedState × List String :=
  if s.is_reminder_sent m.id cid lt then
    ({ acc.1 with timers := removeTimer acc.1.timers (jobIdStr m.id cid lt) }, acc.2)
  else if m.scheduled_at - lt ≤ now then
    ({ (acc.1.enqueue ⟨m.id, cid, lt, 0⟩ false) with
        timers := removeTimer (acc.1.enqueue ⟨m.id, cid, lt, 0⟩ false).timers
          (jobIdStr m.id cid lt) }, acc.2)
  else
    ({ acc.1 with timers := addTimer acc.1.timers (jobIdStr m.id cid lt) },
     acc.2 ++ [jobIdStr m.id cid lt])

/-- The per-meeting body of refresh_schedule: skip meetings without a chat
or without chat settings; with no applicable lead times remove all the
armed timers of the meeting; otherwise run the per-lead-time loop. -/
def processMeeting (defaults : List Int) (s : Storage) (now : Int)
    (acc : SchedState × List String) (m : Meeting) : SchedState × List String :=
  match m.chat_id with
  | none => acc
  | some cid =>
    match s.get_chat cid with
    | none => acc
    | some chat =>
      if service_resolve defaults s m chat = [] then
        ({ acc.1 with
           timers := acc.1.timers.filter (fun t => !(t.startsWith (meetingTimerPfx m.id cid))) },
         acc.2)
      else (service_resolve defaults s m chat).foldl (processLead s now m cid) acc

/-- ReminderService.refresh_schedule: fold the per-meeting body over the
active meetings starting from an empty active-timer set, then sweep timers
whose id is not in the active set. -/
def refresh_schedule (defaults : List Int) (s : Storage) (now : Int) (st : SchedState) :
    SchedState :=
  { ((s.list_meetings).foldl (processMeeting defaults s now) (st, [])).1 with
    timers :=
      (((s.list_meetings).foldl (processMeeting defaults s now) (st, [])).1).timers.filter
        (fun t => ((s.list_meetings).foldl (processMeeting defaults s now) (st, [])).2.contains t) }

/-- Number of jobs with the given identity in the queue. -/
def idCount (q : List ReminderJob) (i : String × Int × Int) : Nat :=
  (q.filter (fun j => decide (j.identity = i))).length

/-- The identity is pending and the queue holds exactly k jobs with it. -/
def InvA (i : String × Int × Int) (k : Nat) (st : SchedState) : Prop :=
  i ∈ st.pending ∧ idCount st.queue i = k

/-- Either the identity was already enqueued once on top of the base count,
or it is not pending and the count is still the base count. -/
def PendInv (i : String × Int × Int) (c : Nat) (st : SchedState) : Prop :=
  InvA i (c + 1) st ∨ ((i ∉ st.pending) ∧ idCount st.queue i = c)

lemma idCount_append_single (q : List ReminderJob) (j : ReminderJob)
    (i : String × Int × Int) :
    idCount (q ++ [j]) i = idCount q i + (if j.identity = i then 1 else 0) := by
  by_cases h : j.identity = i <;> simp [idCount, List.filter_append, h]

lemma enqueue_false (st : SchedState) (j : ReminderJob) :
    st.enqueue j false =
      if j.identity ∈ st.pending then st
      else { st with pending := insertIdentity st.pending j.identity,
                     queue := st.queue ++ [j] } := by
  unfold SchedState.enqueue
  simp

lemma invA_processLead (s : Storage) (now : Int) (m : Meeting) (cid : Int)
    (acc : SchedState × List String) (lt : Int) (i : String × Int × Int) (k : Nat)
    (h : InvA i k acc.1) : InvA i k (processLead s now m cid acc lt).1 := by
  obtain ⟨hp, hq⟩ := h
  unfold processLead
  rw [enqueue_false]
  unfold insertIdentity
  split_ifs with h1 h2 h3
  · exact ⟨hp, hq⟩
  · exact ⟨hp, hq⟩
  · -- enqueue happened: the enqueued identity is not pending, so it is not i
    refine ⟨List.mem_cons_of_mem _ hp, ?_⟩
    have hji : ¬ (⟨m.id, cid, lt, 0⟩ : ReminderJob).identity = i := fun hji => h3 (hji ▸ hp)
    rw [idCount_append_single, if_neg hji]
    omega
  · exact ⟨hp, hq⟩

lemma pendInv_processLead (s : Storage) (now : Int) (m : Meeting) (cid : Int)
    (acc : SchedState × List String) (lt : Int) (i : String × Int × Int) (c : Nat)
    (h : PendInv i c acc.1) : PendInv i c (processLead s now m cid acc lt).1 := by
  rcases h with hA | ⟨hp, hq⟩
  · exact Or.inl (invA_processLead s now m cid acc lt i (c + 1) hA)
  · unfold processLead
    rw [enqueue_false]
    unfold insertIdentity
    split_ifs with h1 h2 h3
    · exact Or.inr ⟨hp, hq⟩
    · -- the identity to enqueue is already pending, so it is not i: no-op
      exact Or.inr ⟨hp, hq⟩
    · by_cases hji : (⟨m.id, cid, lt, 0⟩ : ReminderJob).identity = i
      · refine Or.inl ⟨hji ▸ List.mem_cons_self _ _, ?_⟩
        rw [idCount_append_single, if_pos hji]
        omega
      · refine Or.inr ⟨?_, ?_⟩
        · intro hmem
          rcases List.mem_cons.mp hmem with hmem | hmem
          · exact hji hmem.symm
          · exact hp hmem
        · rw [idCount_append_single, if_neg hji]
          omega
    · exact Or.inr ⟨hp, hq⟩

lemma processLead_forces (s : Storage) (now : Int) (m : Meeting) (cid : Int)
    (acc : SchedState × List String) (lt : Int) (c : Nat)
    (hsent : s.is_reminder_sent m.id cid lt = false)
    (hdue : m.scheduled_at - lt ≤ now)
    (h : PendInv (m.id, cid, lt) c acc.1) :
    InvA (m.id, cid, lt) (c + 1) (processLead s now m cid acc lt).1 := by
  rcases h with hA | ⟨hp, hq⟩
  · exact invA_processLead s now m cid acc lt _ (c + 1) hA
  · have hpi : (⟨m.id, cid, lt, 0⟩ : ReminderJob).identity ∉ acc.1.pending := hp
    have hsentF : ¬ (s.is_reminder_sent m.id cid lt = true) := by rw [hsent]; simp
    unfold processLead
    rw [enqueue_false]
    unfold insertIdentity
    rw [if_neg hsentF, if_pos hdue, if_neg hpi, if_neg hpi]
    refine ⟨List.mem_cons_self _ _, ?_⟩
    rw [idCount_append_single,
      if_pos (show (⟨m.id, cid, lt, 0⟩ : ReminderJob).identity = (m.id, cid, lt) from rfl)]
    omega

lemma foldl_preserve {α β : Type _} (P : α → Prop) (f : α → β → α)
    (hf : ∀ a b, P a → P (f a b)) :
    ∀ (l : List β) (a : α), P a → P (l.foldl f a) := by
  intro l
  induction l with
  | nil => intro a h; exact h
  | cons x xs ih => intro a h; exact ih (f a x) (hf a x h)

lemma foldl_forces {α β : Type _} (P Q : α → Prop) (f : α → β → α) (x : β)
    (l1 l2 : List β)
    (hP : ∀ a b, P a → P (f a b)) (hQ : ∀ a b, Q a → Q (f a b))
    (hx : ∀ a, P a → Q (f a x)) :
    ∀ a, P a → Q ((l1 ++ x :: l2).foldl f a) := by
  intro a h
  rw [List.foldl_append, List.foldl_cons]
  exact foldl_preserve Q f hQ l2 _ (hx _ (foldl_preserve P f hP l1 a h))

lemma invA_processMeeting (defaults : List Int) (s : Storage) (now : Int)
    (i : String × Int × Int) (k : Nat) (acc : SchedState × List String) (m : Meeting)
    (h : InvA i k acc.1) : InvA i k (processMeeting defaults s now acc m).1 := by
  unfold processMeeting
  split
  · exact h
  · rename_i cid _
    split
    · exact h
    · rename_i chat _
      split_ifs with hemp
      · exact h
      · exact foldl_preserve (fun a => InvA i k a.1) (processLead s now m cid)
          (fun a b ha => invA_processLead s now m cid a b i k ha) _ acc h

lemma pendInv_processMeeting (defaults : List Int) (s : Storage) (now : Int)
    (i : String × Int × Int) (c : Nat) (acc : SchedState × List String) (m : Meeting)
    (h : PendInv i c acc.1) : PendInv i c (processMeeting defaults s now acc m).1 := by
  unfold processMeeting
  split
  · exact h
  · rename_i cid _
    split
    · exact h
    · rename_i chat _
      split_ifs with hemp
      · rcases h with hA | hB
        · exact Or.inl hA
        · exact Or.inr hB
      · exact foldl_preserve (fun a => PendInv i c a.1) (processLead s now m cid)
          (fun a b ha => pendInv_processLead s now m cid a b i c ha) _ acc h

lemma processMeeting_forces (defaults : List Int) (s : Storage) (now : Int)
    (m : Meeting) (cid : Int) (chat : ChatSettings) (lt : Int) (c : Nat)
    (acc : SchedState × List String)
    (hc : m.chat_id = some cid) (hchat : s.get_chat cid = some chat)
    (hlt : lt ∈ service_resolve defaults s m chat)
    (hsent : s.is_reminder_sent m.id cid lt = false)
    (hdue : m.scheduled_at - lt ≤ now)
    (h : PendInv (m.id, cid, lt) c acc.1) :
    InvA (m.id, cid, lt) (c + 1) (processMeeting defaults s now acc m).1 := by
  unfold processMeeting
  rw [hc]
  simp only [hchat]
  rw [if_neg (List.ne_nil_of_mem hlt)]
  obtain ⟨l1, l2, hsplit⟩ := List.append_of_mem hlt
  rw [hsplit]
  exact foldl_forces (fun a => PendInv (m.id, cid, lt) c a.1)
    (fun a => InvA (m.id, cid, lt) (c + 1) a.1) (processLead s now m cid) lt l1 l2
    (fun a b ha => pendInv_processLead s now m cid a b _ c ha)
    (fun a b ha => invA_processLead s now m cid a b _ (c + 1) ha)
    (fun a ha => processLead_forces s now m cid a lt c hsent hdue ha)
    acc h

lemma invA_refresh (defaults : List Int) (s : Storage) (now : Int)
    (i : String × Int × Int) (k : Nat) (st : SchedState)
    (h : InvA i k st) : InvA i k (refresh_schedule defaults s now st) := by
  unfold refresh_schedule
  exact foldl_preserve (fun a => InvA i k a.1) (processMeeting defaults s now)
    (fun a b ha => invA_processMeeting defaults s now i k a b ha)
    s.list_meetings (st, []) h

/-- C2: for a non-canceled meeting with chat settings, an applicable lead
time that is due (now is at or past scheduledAt minus the lead time) and not
in the ledger, and whose identity is not yet in the PendingSet, one
refresh_schedule call appends exactly one job with that identity to the
queue and records the identity as pending; a second refresh_schedule call
from the resulting state (at any later instant, with no intervening
delivery or storage change) appends no further job with that identity,
because _enqueue is a no-op while the identity is pending. -/
theorem refresh_enqueue_once (defaults : List Int) (s : Storage) (now now2 : Int)
    (st : SchedState) (m : Meeting) (cid : Int) (chat : ChatSettings) (lt : Int)
    (hm : m ∈ s.list_meetings) (hc : m.chat_id = some cid)
    (hchat : s.get_chat cid = some chat)
    (hlt : lt ∈ service_resolve defaults s m chat)
    (hsent : s.is_reminder_sent m.id cid lt = false)
    (hdue : m.scheduled_at - lt ≤ now)
    (hpend : (m.id, cid, lt) ∉ st.pending) :
    idCount (refresh_schedule defaults s now st).queue (m.id, cid, lt)
        = idCount st.queue (m.id, cid, lt) + 1
    ∧ (m.id, cid, lt) ∈ (refresh_schedule defaults s now st).pending
    ∧ idCount (refresh_schedule defaults s now2 (refresh_schedule defaults s now st)).queue
          (m.id, cid, lt)
        = idCount (refresh_schedule defaults s now st).queue (m.id, cid, lt) := by
  have key : InvA (m.id, cid, lt) (idCount st.queue (m.id, cid, lt) + 1)
      (refresh_schedule defaults s now st) := by
    unfold refresh_schedule
    obtain ⟨l1, l2, hsplit⟩ := List.append_of_mem hm
    rw [hsplit]
    exact foldl_forces (fun a => PendInv (m.id, cid, lt) (idCount st.queue (m.id, cid, lt)) a.1)
      (fun a => InvA (m.id, cid, lt) (idCount st.queue (m.id, cid, lt) + 1) a.1)
      (processMeeting defaults s now) m l1 l2
      (fun a b ha => pendInv_processMeeting defaults s now _ _ a b ha)
      (fun a b ha => invA_processMeeting defaults s now _ _ a b ha)
      (fun a ha => processMeeting_forces defaults s now m cid chat lt _ a
        hc hchat hlt hsent hdue ha)
      (st, []) (Or.inr ⟨hpend, rfl⟩)
  refine ⟨key.2, key.1, ?_⟩
  have key2 := invA_refresh defaults s now2 (m.id, cid, lt)
    (idCount st.queue (m.id, cid, lt) + 1) _ key
  rw [key2.2, key.2]

/-- Demo storage for the refresh theorem: one meeting at 1000 in chat 1,
organizer override 600 seconds. -/
def refresh_demo_storage : Storage :=
  { meetings := [⟨"m1", "demo", 1000, 7, some 1, "planned", false⟩],
    chats := [⟨1, [600]⟩], users := [⟨7, 600⟩], reminder_log := [],
    audit_log := [], default_user_lead_time := 900 }

/-- The single meeting of refresh_demo_storage. -/
def refresh_demo_meeting : Meeting := ⟨"m1", "demo", 1000, 7, some 1, "planned", false⟩

/-- The single chat of refresh_demo_storage. -/
def refresh_demo_chat : ChatSettings := ⟨1, [600]⟩

/-- Concrete instance of the refresh idempotence theorem: at time 1000 the
600-second reminder for the meeting at 1000 is due, and one refresh from the
empty state enqueues it exactly once. -/
theorem refresh_enqueue_once_witness :
    refresh_demo_meeting ∈ refresh_demo_storage.list_meetings
    ∧ idCount (refresh_schedule [0] refresh_demo_storage 1000 ⟨[], [], []⟩).queue ("m1", 1, 600)
        = idCount (⟨[], [], []⟩ : SchedState).queue ("m1", 1, 600) + 1 :=
  ⟨by decide,
   (refresh_enqueue_once [0] refresh_demo_storage 1000 1001 ⟨[], [], []⟩
      refresh_demo_meeting 1 refresh_demo_chat 600 (by decide) (by decide) (by decide)
      (by decide) (by decide) (by decide) (by decide)).1⟩

/-- One iteration of the TelegramSender._run_worker loop as seen by the rate
limiter: how long the underlying invocation took, whether it succeeded (only
then is last_sent updated), and how long the worker slept afterwards in
_handle_retry when it failed (0 for a hard failure). -/
structure SenderIter where
  duration : ℚ
  ok : Bool
  post_sleep : ℚ
deriving DecidableEq, Repr

/-- min_interval of _run_worker: 1/rps when rps is positive, else 0. -/
def min_interval_of (rps : ℚ) : ℚ := if 0 < rps then 1 / rps else 0

/-- The instant the next invocation starts: the worker sleeps
wait + rate_limit_buffer only when wait = min_interval - (clock - last_sent)
is positive. -/
def iterStart (mi buf clock last_sent : ℚ) : ℚ :=
  if 0 < mi - (clock - last_sent) then clock + (mi - (clock - last_sent)) + buf else clock

/-- The invocation start times of the worker loop processing the given
iterations from the given clock and last_sent values (last_sent is advanced
to the completion instant only on success, exactly as in _run_worker). -/
def senderTrace (mi buf : ℚ) : List SenderIter → ℚ → ℚ → List ℚ
  | [], _, _ => []
  | it :: rest, clock, last_sent =>
    iterStart mi buf clock last_sent ::
      (if it.ok then
        senderTrace mi buf rest (iterStart mi buf clock last_sent + it.duration)
          (iterStart mi buf clock last_sent + it.duration)
      else
        senderTrace mi buf rest
          (iterStart mi buf clock last_sent + it.duration + it.post_sleep) last_sent)

/-- Counterexample to C6 as stated: with rps 1 (minimum gap 1), a first
invocation that fails at time 1 does not update last_sent, so the second
invocation also starts at time 1 — the gap between the two consecutive
underlying invocations is 0, not at least 1/R; the rate spacing only
applies after successful invocations. -/
theorem sender_gap_counterexample :
    senderTrace (min_interval_of 1) 0 [⟨0, false, 0⟩, ⟨0, true, 0⟩] 0 0 = [1, 1]
    ∧ ¬ ((1 : ℚ) + 1 / 1 ≤ 1) := by
  constructor
  · norm_num [senderTrace, iterStart, min_interval_of]
  · norm_num

lemma iterStart_ge_last (mi buf clock last : ℚ) (hbuf : 0 ≤ buf) :
    last + mi ≤ iterStart mi buf clock last := by
  unfold iterStart
  split_ifs with h
  · linarith
  · linarith [not_lt.mp h]

lemma senderTrace_chain (mi buf : ℚ) (hbuf : 0 ≤ buf) :
    ∀ (iters : List SenderIter) (clock last : ℚ),
      (∀ it ∈ iters, it.ok = true) → (∀ it ∈ iters, 0 ≤ it.duration) →
      List.Chain' (fun a b => a + mi ≤ b) (senderTrace mi buf iters clock last)
      ∧ (∀ x ∈ (senderTrace mi buf iters clock last).head?, last + mi ≤ x) := by
  intro iters
  induction iters with
  | nil =>
      intro clock last _ _
      exact ⟨List.chain'_nil, by simp [senderTrace]⟩
  | cons it rest ih =>
      intro clock last hok hdur
      have hito : it.ok = true := hok it (List.mem_cons_self it rest)
      have hitd : 0 ≤ it.duration := hdur it (List.mem_cons_self it rest)
      obtain ⟨ihc, ihh⟩ := ih (iterStart mi buf clock last + it.duration)
        (iterStart mi buf clock last + it.duration)
        (fun x hx => hok x (List.mem_cons_of_mem _ hx))
        (fun x hx => hdur x (List.mem_cons_of_mem _ hx))
      have hunf : senderTrace mi buf (it :: rest) clock last
          = iterStart mi buf clock last ::
              senderTrace mi buf rest (iterStart mi buf clock last + it.duration)
                (iterStart mi buf clock last + it.duration) := by
        simp [senderTrace, hito]
      rw [hunf]
      constructor
      · rw [List.chain'_cons']
        refine ⟨fun y hy => ?_, ihc⟩
        have := ihh y hy
        linarith
      · intro x hx
        simp only [List.head?_cons, Option.mem_def, Option.some.injEq] at hx
        subst hx
        exact iterStart_ge_last mi buf clock last hbuf

lemma chain_head_getLast (mi : ℚ) :
    ∀ (l : List ℚ), List.Chain' (fun a b => a + mi ≤ b) l →
      ∀ x ∈ l.head?, ∀ y ∈ l.getLast?, x + ((l.length : ℚ) - 1) * mi ≤ y := by
  intro l
  induction l with
  | nil => intro _ x hx; simp at hx
  | cons a t ih =>
      intro hc x hx y hy
      simp only [List.head?_cons, Option.mem_def, Option.some.injEq] at hx
      subst hx
      cases t with
      | nil =>
          simp only [List.getLast?_singleton, Option.mem_def, Option.some.injEq] at hy
          subst hy
          simp
      | cons b t2 =>
          rw [List.chain'_cons] at hc
          have hy' : y ∈ (b :: t2).getLast? := by
            rwa [List.getLast?_cons_cons] at hy
          have hib := ih hc.2 b (by simp) y hy'
          have hc1 : a + mi ≤ b := hc.1
          push_cast [List.length_cons] at hib ⊢
          ring_nf at hib ⊢
          linarith

/-- C6 amended: on a profile configured for rps requests per second, as long
as every underlying invocation succeeds (last_sent advances each time), any
two consecutive invocation start times are at least 1/rps apart, and K
invocations span at least (K-1)/rps between the first and the last start —
the pre-send sleep enforces the spacing.  After a failed invocation
last_sent is not updated, so the spacing guarantee does not cover gaps that
follow failures (see the counterexample). -/
theorem sender_rate_limit_gaps (rps buf clock last : ℚ) (iters : List SenderIter)
    (hrps : 0 < rps) (hbuf : 0 ≤ buf)
    (hok : ∀ it ∈ iters, it.ok = true) (hdur : ∀ it ∈ iters, 0 ≤ it.duration) :
    List.Chain' (fun a b => a + 1 / rps ≤ b)
      (senderTrace (min_interval_of rps) buf iters clock last)
    ∧ (∀ x ∈ (senderTrace (min_interval_of rps) buf iters clock last).head?,
       ∀ y ∈ (senderTrace (min_interval_of rps) buf iters clock last).getLast?,
        x + (((senderTrace (min_interval_of rps) buf iters clock last).length : ℚ) - 1)
            * (1 / rps) ≤ y) := by
  have hmi : min_interval_of rps = 1 / rps := if_pos hrps
  rw [hmi]
  have h := senderTrace_chain (1 / rps) buf hbuf iters clock last hok hdur
  exact ⟨h.1, chain_head_getLast (1 / rps) _ h.1⟩

/-- Concrete instance of the rate-limit gap theorem: two instant successful
sends at 2 requests per second. -/
theorem sender_rate_limit_gaps_witness :
    (0 : ℚ) < 2
    ∧ List.Chain' (fun a b => a + 1 / 2 ≤ b)
        (senderTrace (min_interval_of 2) 0 [⟨0, true, 0⟩, ⟨0, true, 0⟩] 0 0) :=
  ⟨by norm_num,
   (sender_rate_limit_gaps 2 0 0 0 [⟨0, true, 0⟩, ⟨0, true, 0⟩] (by norm_num) (by norm_num)
      (by intro it hit; rcases List.mem_cons.mp hit with rfl | hit2; · rfl
          rcases List.mem_cons.mp hit2 with rfl | hit3; · rfl
          simp at hit3)
      (by intro it hit; rcases List.mem_cons.mp hit with rfl | hit2; · norm_num
          rcases List.mem_cons.mp hit2 with rfl | hit3; · norm_num
          simp at hit3)).1⟩
